import Mathlib

/-!
# Verification of the bladebit Disk-Staged Bucket I/O Engine

A shallow embedding of the two source files under verification:

* `src/util/BitView.h` — the `BitReader` class (big-endian 64-bit fields,
  sub-field bit extraction).
* `src/diskplot/DiskBufferQueue.cpp` — the disk buffer queue: block-aligned
  `WriteToFile`, `CmdWriteBuckets`, `InitFileSet` block-size handling,
  `OpenPlotFile` header construction, and delete-command path construction.

Machine integers are embedded as `Nat` with explicit `% 2^w` where the C code
can overflow; buffers and files are `List Nat` of byte values; fallible code
returns `Option`.
-/

/-! ## Byte swapping (Swap64 / Swap16 intrinsics used by the source) -/

/-- 64-bit byte swap, as used by `BitReader`'s constructor (`Swap64`).
The byte at position `i` (little-endian) moves to position `7 - i`. -/
def Swap64 (x : Nat) : Nat :=
  (x % 256) * 2^56 +
  (x / 2^8  % 256) * 2^48 +
  (x / 2^16 % 256) * 2^40 +
  (x / 2^24 % 256) * 2^32 +
  (x / 2^32 % 256) * 2^24 +
  (x / 2^40 % 256) * 2^16 +
  (x / 2^48 % 256) * 2^8 +
  (x / 2^56 % 256)

/-- 16-bit byte swap (`Swap16`), used for the big-endian length fields of the
plot header. -/
def Swap16 (x : Nat) : Nat :=
  (x % 256) * 2^8 + (x / 2^8 % 256)

theorem Swap64_lt (x : Nat) : Swap64 x < 2^64 := by
  unfold Swap64
  have h0 : x % 256 < 256 := Nat.mod_lt _ (by norm_num)
  have h1 : x / 2^8  % 256 < 256 := Nat.mod_lt _ (by norm_num)
  have h2 : x / 2^16 % 256 < 256 := Nat.mod_lt _ (by norm_num)
  have h3 : x / 2^24 % 256 < 256 := Nat.mod_lt _ (by norm_num)
  have h4 : x / 2^32 % 256 < 256 := Nat.mod_lt _ (by norm_num)
  have h5 : x / 2^40 % 256 < 256 := Nat.mod_lt _ (by norm_num)
  have h6 : x / 2^48 % 256 < 256 := Nat.mod_lt _ (by norm_num)
  have h7 : x / 2^56 % 256 < 256 := Nat.mod_lt _ (by norm_num)
  omega

theorem Nat.div_pow_succ_byte (y k : Nat) : y / 2^(k+8) = y / 2^k / 2^8 := by
  rw [Nat.div_div_eq_div_mul, ← pow_add]

theorem Swap64_byte_sum (q0 q1 q2 q3 q4 q5 q6 q7 : Nat)
    (h0 : q0 < 256) (h1 : q1 < 256) (h2 : q2 < 256) (h3 : q3 < 256)
    (h4 : q4 < 256) (h5 : q5 < 256) (h6 : q6 < 256) (h7 : q7 < 256) :
    Swap64 (q0*2^56 + q1*2^48 + q2*2^40 + q3*2^32 + q4*2^24 + q5*2^16 + q6*2^8 + q7)
      = q7*2^56 + q6*2^48 + q5*2^40 + q4*2^32 + q3*2^24 + q2*2^16 + q1*2^8 + q0 := by
  generalize hS : q0*2^56 + q1*2^48 + q2*2^40 + q3*2^32 + q4*2^24 + q5*2^16 + q6*2^8 + q7 = S
  have d8  : S / 2^8  = q0*2^48 + q1*2^40 + q2*2^32 + q3*2^24 + q4*2^16 + q5*2^8 + q6 := by omega
  have d16 : S / 2^16 = q0*2^40 + q1*2^32 + q2*2^24 + q3*2^16 + q4*2^8 + q5 := by
    rw [Nat.div_pow_succ_byte S 8, d8]; omega
  have d24 : S / 2^24 = q0*2^32 + q1*2^24 + q2*2^16 + q3*2^8 + q4 := by
    rw [Nat.div_pow_succ_byte S 16, d16]; omega
  have d32 : S / 2^32 = q0*2^24 + q1*2^16 + q2*2^8 + q3 := by
    rw [Nat.div_pow_succ_byte S 24, d24]; omega
  have d40 : S / 2^40 = q0*2^16 + q1*2^8 + q2 := by
    rw [Nat.div_pow_succ_byte S 32, d32]; omega
  have d48 : S / 2^48 = q0*2^8 + q1 := by
    rw [Nat.div_pow_succ_byte S 40, d40]; omega
  have d56 : S / 2^56 = q0 := by
    rw [Nat.div_pow_succ_byte S 48, d48]; omega
  have e0  : S % 256 = q7 := by omega
  have e8  : S / 2^8  % 256 = q6 := by rw [d8]; omega
  have e16 : S / 2^16 % 256 = q5 := by rw [d16]; omega
  have e24 : S / 2^24 % 256 = q4 := by rw [d24]; omega
  have e32 : S / 2^32 % 256 = q3 := by rw [d32]; omega
  have e40 : S / 2^40 % 256 = q2 := by rw [d40]; omega
  have e48 : S / 2^48 % 256 = q1 := by rw [d48]; omega
  have e56 : S / 2^56 % 256 = q0 := by rw [d56]; omega
  unfold Swap64
  rw [e0, e8, e16, e24, e32, e40, e48, e56]

theorem Nat.byte_sum_reconstruct (x : Nat) (hx : x < 2^64) :
    (x / 2^56 % 256)*2^56 + (x / 2^48 % 256)*2^48 + (x / 2^40 % 256)*2^40
      + (x / 2^32 % 256)*2^32 + (x / 2^24 % 256)*2^24 + (x / 2^16 % 256)*2^16
      + (x / 2^8 % 256)*2^8 + x % 256 = x := by
  have cx16 : x / 2^16 = x / 2^8  / 2^8 := Nat.div_pow_succ_byte x 8
  have cx24 : x / 2^24 = x / 2^16 / 2^8 := Nat.div_pow_succ_byte x 16
  have cx32 : x / 2^32 = x / 2^24 / 2^8 := Nat.div_pow_succ_byte x 24
  have cx40 : x / 2^40 = x / 2^32 / 2^8 := Nat.div_pow_succ_byte x 32
  have cx48 : x / 2^48 = x / 2^40 / 2^8 := Nat.div_pow_succ_byte x 40
  have cx56 : x / 2^56 = x / 2^48 / 2^8 := Nat.div_pow_succ_byte x 48
  have m16 : x % 2^16 = (x / 2^8  % 256)*2^8  + x % 256   := by omega
  have m24 : x % 2^24 = (x / 2^16 % 256)*2^16 + x % 2^16 := by omega
  have m32 : x % 2^32 = (x / 2^24 % 256)*2^24 + x % 2^24 := by omega
  have m40 : x % 2^40 = (x / 2^32 % 256)*2^32 + x % 2^32 := by omega
  have m48 : x % 2^48 = (x / 2^40 % 256)*2^40 + x % 2^40 := by omega
  have m56 : x % 2^56 = (x / 2^48 % 256)*2^48 + x % 2^48 := by omega
  have m64 : x % 2^64 = (x / 2^56 % 256)*2^56 + x % 2^56 := by omega
  have hxm : x % 2^64 = x := Nat.mod_eq_of_lt hx
  omega

theorem Swap64_involutive (x : Nat) (hx : x < 2^64) : Swap64 (Swap64 x) = x := by
  have hrw : Swap64 (Swap64 x)
      = (x / 2^56 % 256)*2^56 + (x / 2^48 % 256)*2^48 + (x / 2^40 % 256)*2^40
        + (x / 2^32 % 256)*2^32 + (x / 2^24 % 256)*2^24 + (x / 2^16 % 256)*2^16
        + (x / 2^8 % 256)*2^8 + x % 256 := by
    have hbody : Swap64 x
        = (x % 256)*2^56 + (x / 2^8 % 256)*2^48 + (x / 2^16 % 256)*2^40
          + (x / 2^24 % 256)*2^32 + (x / 2^32 % 256)*2^24 + (x / 2^40 % 256)*2^16
          + (x / 2^48 % 256)*2^8 + (x / 2^56 % 256) := rfl
    rw [hbody]
    exact Swap64_byte_sum _ _ _ _ _ _ _ _
      (Nat.mod_lt _ (by norm_num)) (Nat.mod_lt _ (by norm_num))
      (Nat.mod_lt _ (by norm_num)) (Nat.mod_lt _ (by norm_num))
      (Nat.mod_lt _ (by norm_num)) (Nat.mod_lt _ (by norm_num))
      (Nat.mod_lt _ (by norm_num)) (Nat.mod_lt _ (by norm_num))
  rw [hrw]
  exact Nat.byte_sum_reconstruct x hx

/-! ## BitReader (`src/util/BitView.h`)

The reader's state: `_fields` (the 64-bit field buffer, embedded as a list of
`Nat` values `< 2^64`), `_sizeBits` and `_position`. -/

structure BitReader where
  fields : List Nat
  sizeBits : Nat
  position : Nat
deriving DecidableEq, Repr

namespace BitReader

/-- The in-place transformation performed by `BitReader`'s constructor:
every complete 64-bit field is byte-swapped (`Swap64`); when `sizeBits` is not
a multiple of 64, the final partial field is first shifted left by
`64 - bitsRemainder` (a 64-bit shift, hence `% 2^64`) and then swapped.
Fields beyond the data are left untouched. -/
def initFields (bytesBE : List Nat) (sizeBits : Nat) : List Nat :=
  let fieldCount := sizeBits / 64
  let bitsRemainder := sizeBits - fieldCount * 64
  if bitsRemainder ≠ 0 then
    (bytesBE.take fieldCount).map Swap64
      ++ [Swap64 ((bytesBE.getD fieldCount 0 <<< (64 - bitsRemainder)) % 2^64)]
      ++ bytesBE.drop (fieldCount + 1)
  else
    (bytesBE.take fieldCount).map Swap64 ++ bytesBE.drop fieldCount

/-- `BitReader::BitReader(bytesBE, sizeBits)`: transform the buffer and start
at position 0. -/
def init (bytesBE : List Nat) (sizeBits : Nat) : BitReader :=
  { fields := initFields bytesBE sizeBits, sizeBits := sizeBits, position := 0 }

/-- `BitReader::ReadBits64(bitCount)`: read up to 64 bits at the current
position, advancing the position. All 64-bit operations are modelled with an
explicit `% 2^64` where the C `uint64` arithmetic can wrap. -/
def ReadBits64 (br : BitReader) (bitCount : Nat) : Nat × BitReader :=
  let fieldIndex := br.position >>> 6
  let bitsAvailable := (fieldIndex + 1) * 64 - br.position
  let shift := max bitCount bitsAvailable - bitCount
  let value := br.fields.getD fieldIndex 0 >>> shift
  let value :=
    if bitsAvailable < bitCount then
      let bitsNeeded := bitCount - bitsAvailable
      ((value <<< bitsNeeded) % 2^64) ||| (br.fields.getD (fieldIndex + 1) 0 >>> (64 - bitsNeeded))
    else value
  let value := value &&& (0xFFFFFFFFFFFFFFFF >>> (64 - bitCount))
  (value, { br with position := br.position + bitCount })

/-- `BitReader::ReadBits128(bitCount)`: read up to 128 bits. The accumulator
`value` is a `uint128` (explicit `% 2^128`), but — exactly as in the source —
the term `_fields[fieldIndex+1] << lastFieldBitsNeeded` in the three-field
branch is computed in `uint64` arithmetic (`% 2^64`) before being OR-ed in. -/
def ReadBits128 (br : BitReader) (bitCount : Nat) : Nat × BitReader :=
  let fieldIndex := br.position >>> 6
  let bitsAvailable := (fieldIndex + 1) * 64 - br.position
  let shift := max bitCount bitsAvailable - bitCount
  let value := br.fields.getD fieldIndex 0 >>> shift
  let value :=
    if bitsAvailable < bitCount then
      let bitsNeeded := bitCount - bitsAvailable
      if 64 < bitsNeeded then
        let lastFieldBitsNeeded := bitsNeeded - 64
        let v := ((value <<< bitsNeeded) % 2^128)
                   ||| ((br.fields.getD (fieldIndex + 1) 0 <<< lastFieldBitsNeeded) % 2^64)
        v ||| (br.fields.getD (fieldIndex + 2) 0 >>> (64 - lastFieldBitsNeeded))
      else
        ((value <<< bitsNeeded) % 2^128)
          ||| (br.fields.getD (fieldIndex + 1) 0 >>> (64 - bitsNeeded))
    else value
  let value := value &&& ((0xFFFFFFFFFFFFFFFFFFFFFFFFFFFFFFFF) >>> (128 - bitCount))
  (value, { br with position := br.position + bitCount })

/-- `ReadBits64` with the undefined-behaviour shift checks made explicit:
whenever the C code would evaluate a shift on a 64-bit operand with a shift
amount `≥ 64` (undefined behaviour), this embedding returns `none`. The
`64 - bitCount` of the mask is a `uint32` subtraction, so it is modelled with
its wrap-around `% 2^32`. -/
def ReadBits64Checked (br : BitReader) (bitCount : Nat) : Option (Nat × BitReader) :=
  let fieldIndex := br.position >>> 6
  let bitsAvailable := (fieldIndex + 1) * 64 - br.position
  let shift := max bitCount bitsAvailable - bitCount
  if 64 ≤ shift then none else
  let value := br.fields.getD fieldIndex 0 >>> shift
  let step2 :=
    if bitsAvailable < bitCount then
      let bitsNeeded := bitCount - bitsAvailable
      if 64 ≤ bitsNeeded then none
      else if 64 ≤ (2^32 + 64 - bitsNeeded) % 2^32 then none
      else some (((value <<< bitsNeeded) % 2^64)
                   ||| (br.fields.getD (fieldIndex + 1) 0 >>> (64 - bitsNeeded)))
    else some value
  match step2 with
  | none => none
  | some value =>
    let maskShift := (2^32 + 64 - bitCount) % 2^32
    if 64 ≤ maskShift then none else
    some (value &&& (0xFFFFFFFFFFFFFFFF >>> maskShift),
          { br with position := br.position + bitCount })

/-- The value of the reader's field list as one big natural number, fields
concatenated most-significant first. This is the abstract big-endian bit
stream the reader walks over. -/
def wordsVal (fields : List Nat) : Nat :=
  fields.foldl (fun acc f => acc * 2^64 + f) 0

/-- Specification-level read: the `n` bits of the abstract bit stream starting
at bit position `pos` (most-significant-bit first), as a natural number. -/
def specReadBits (fields : List Nat) (pos n : Nat) : Nat :=
  wordsVal fields / 2^(64 * fields.length - (pos + n)) % 2^n

end BitReader

/-! ## Arithmetic helpers for shift/mask reasoning -/

theorem mul_sub_one_div (d q : Nat) (hd : 0 < d) (hq : 0 < q) :
    (d * q - 1) / d = q - 1 := by
  obtain ⟨d', rfl⟩ : ∃ e, d = e + 1 := ⟨d - 1, by omega⟩
  obtain ⟨q', rfl⟩ : ∃ e, q = e + 1 := ⟨q - 1, by omega⟩
  have hexp : (d' + 1) * (q' + 1) - 1 = d' + (d' + 1) * q' := by ring_nf; omega
  rw [hexp, Nat.add_mul_div_left _ _ (by omega : 0 < d' + 1),
      Nat.div_eq_of_lt (by omega)]
  omega

theorem two_pow_sub_one_shiftRight (m k : Nat) (h : k ≤ m) :
    ((2^m - 1) : Nat) >>> k = 2^(m-k) - 1 := by
  rw [Nat.shiftRight_eq_div_pow]
  have h2 : (2:Nat)^m = 2^k * 2^(m-k) := by rw [← pow_add]; congr 1; omega
  rw [h2]
  exact mul_sub_one_div _ _ (Nat.two_pow_pos k) (Nat.two_pow_pos (m-k))

theorem u64_mask_shiftRight (n : Nat) (h : n ≤ 64) :
    (18446744073709551615 : Nat) >>> (64 - n) = 2^n - 1 := by
  have h2 := two_pow_sub_one_shiftRight 64 (64 - n) (by omega)
  rw [show 64 - (64 - n) = n by omega] at h2
  norm_num at h2
  exact h2

/-! ## Claim theorems for the BitReader -/

/-- **C4**: for every value `v` of `n` bits (`1 ≤ n ≤ 64`) encoded
left-justified big-endian into 64-bit fields, a `BitReader` constructed over
that buffer returns `v` on `ReadBits64 n`; over the buffer encoding the
big-endian fields `0xAAAAAAAAAAAAAAAA, 0xBBBBBBBBBBBBBBBB` with
`sizeBits = 128`, `ReadBits64 4` returns `0xA`, and after 60 further
`ReadBits64 1` calls (position 64) `ReadBits64 8` returns `0xBB`; the
position advances by `n` on every read. -/
theorem bitreader_readbits64_roundtrip :
    (∀ n v : Nat, 1 ≤ n → n ≤ 64 → v < 2^n →
      ((BitReader.init [Swap64 ((v <<< (64 - n)) % 2^64)] 64).ReadBits64 n).1 = v)
    ∧ ((BitReader.init [0xAAAAAAAAAAAAAAAA, 0xBBBBBBBBBBBBBBBB] 128).ReadBits64 4).1 = 0xA
    ∧ ((fun br => (BitReader.ReadBits64 br 1).2)^[60]
        (((BitReader.init [0xAAAAAAAAAAAAAAAA, 0xBBBBBBBBBBBBBBBB] 128).ReadBits64 4).2)).position
        = 64
    ∧ (BitReader.ReadBits64
        ((fun br => (BitReader.ReadBits64 br 1).2)^[60]
          (((BitReader.init [0xAAAAAAAAAAAAAAAA, 0xBBBBBBBBBBBBBBBB] 128).ReadBits64 4).2)) 8).1
        = 0xBB
    ∧ ∀ (br : BitReader) (n : Nat),
        ((BitReader.ReadBits64 br n).2).position = br.position + n := by
  refine ⟨?_, by decide, by decide, by decide, fun br n => rfl⟩
  intro n v h1 h64 hv
  have hw : (v <<< (64 - n)) % 2^64 = v * 2^(64 - n) := by
    rw [Nat.shiftLeft_eq]
    apply Nat.mod_eq_of_lt
    calc v * 2^(64-n) < 2^n * 2^(64-n) := by
          exact (Nat.mul_lt_mul_right (Nat.two_pow_pos _)).mpr hv
      _ = 2^64 := by rw [← pow_add]; congr 1; omega
  have hfields : BitReader.initFields [Swap64 ((v <<< (64 - n)) % 2^64)] 64
      = [(v <<< (64 - n)) % 2^64] := by
    unfold BitReader.initFields
    simp only [show (64:Nat) / 64 = 1 from rfl]
    norm_num
    exact Swap64_involutive _ (Nat.mod_lt _ (by norm_num))
  unfold BitReader.init BitReader.ReadBits64
  rw [hfields]
  norm_num
  rw [show n ⊔ 64 = 64 from Nat.max_eq_right h64,
      show (18446744073709551616 : Nat) = 2^64 by norm_num]
  rw [hw, Nat.shiftRight_eq_div_pow, Nat.mul_div_cancel _ (Nat.two_pow_pos _),
      u64_mask_shiftRight n h64, Nat.and_pow_two_sub_one_eq_mod]
  rw [if_neg (by omega : ¬ (64 < n))]
  exact Nat.mod_eq_of_lt hv

theorem bitreader_readbits64_roundtrip_witness :
    ((BitReader.init [Swap64 ((5 <<< (64 - 3)) % 2^64)] 64).ReadBits64 3).1 = 5 :=
  bitreader_readbits64_roundtrip.1 3 5 (by norm_num) (by norm_num) (by norm_num)

/-- **C5**: evaluating the embedded `ReadBits128` at a read that spans three
consecutive fields (position 32, 128 bits, fields
`[0, 0xFFFFFFFFFFFFFFFF, 0]`): the code returns `0xFFFFFFFF00000000`, while
the bits of the abstract big-endian stream at that position are
`0xFFFFFFFFFFFFFFFF00000000` — the high 32 bits of the middle field are
dropped because `_fields[fieldIndex+1] << lastFieldBitsNeeded` is computed in
64-bit arithmetic. -/
theorem bitreader_readbits128_three_field_eval :
    (BitReader.ReadBits128 ⟨[0, 0xFFFFFFFFFFFFFFFF, 0], 192, 32⟩ 128).1
      = 0xFFFFFFFF00000000
    ∧ BitReader.specReadBits [0, 0xFFFFFFFFFFFFFFFF, 0] 32 128
      = 0xFFFFFFFFFFFFFFFF00000000
    ∧ (0xFFFFFFFF00000000 : Nat) ≠ 0xFFFFFFFFFFFFFFFF00000000 :=
  ⟨by decide, by decide, by decide⟩

/-- **C8**: for every `sizeBits` (with the buffer holding at least
`sizeBits` bits of fields), construction byte-swaps each complete 64-bit
field in place, and when `sizeBits % 64 = r ≠ 0` the final partial field is
left-shifted by `64 - r` (as a 64-bit value) before being swapped. -/
theorem bitreader_construction_swaps_fields (bytesBE : List Nat) (sizeBits i : Nat)
    (hlen : sizeBits ≤ 64 * bytesBE.length) :
    (i < sizeBits / 64 →
      (BitReader.initFields bytesBE sizeBits).getD i 0 = Swap64 (bytesBE.getD i 0))
    ∧ (sizeBits % 64 ≠ 0 →
      (BitReader.initFields bytesBE sizeBits).getD (sizeBits / 64) 0
        = Swap64 ((bytesBE.getD (sizeBits / 64) 0 <<< (64 - sizeBits % 64)) % 2^64)) := by
  have hfc : sizeBits / 64 ≤ bytesBE.length := by omega
  have hrm : sizeBits - sizeBits / 64 * 64 = sizeBits % 64 := by omega
  constructor
  · intro hi
    have hi' : i < bytesBE.length := by omega
    simp only [BitReader.initFields]
    rw [hrm]
    by_cases hr : sizeBits % 64 = 0
    · simp only [hr, ne_eq, not_true_eq_false, if_false, ite_false]
      rw [List.getD_eq_getElem?_getD,
          List.getElem?_append_left (by simpa using by omega),
          List.getElem?_map, List.getElem?_take_of_lt hi,
          List.getElem?_eq_getElem hi']
      simp [List.getD_eq_getElem?_getD, List.getElem?_eq_getElem hi']
    · simp only [ne_eq, hr, not_false_eq_true, if_true, ite_true]
      rw [List.getD_eq_getElem?_getD,
          List.getElem?_append_left (by simpa using by omega),
          List.getElem?_append_left (by simpa using by omega),
          List.getElem?_map, List.getElem?_take_of_lt hi,
          List.getElem?_eq_getElem hi']
      simp [List.getD_eq_getElem?_getD, List.getElem?_eq_getElem hi']
  · intro hr
    simp only [BitReader.initFields]
    rw [hrm]
    simp only [ne_eq, hr, not_false_eq_true, if_true, ite_true]
    have hmaplen : ((bytesBE.take (sizeBits / 64)).map Swap64).length = sizeBits / 64 := by
      simp [List.length_map, List.length_take]; omega
    rw [List.append_assoc, List.getD_eq_getElem?_getD,
        List.getElem?_append_right hmaplen.le, hmaplen, Nat.sub_self]
    simp

theorem bitreader_construction_swaps_fields_witness :
    (BitReader.initFields [3, 7] 100).getD 0 0 = Swap64 3
    ∧ (BitReader.initFields [3, 7] 100).getD 1 0 = Swap64 ((7 <<< 28) % 2^64) := by
  constructor
  · have h := (bitreader_construction_swaps_fields [3, 7] 100 0 (by norm_num)).1 (by norm_num)
    norm_num at h
    exact h
  · have h := (bitreader_construction_swaps_fields [3, 7] 100 0 (by norm_num)).2 (by norm_num)
    norm_num at h
    exact h

/-- **C10**: for every `ReadBits64` call with `1 ≤ bitCount ≤ 64` and
`position + bitCount ≤ sizeBits`, every shift amount the function evaluates
is at most 63, so the out-of-range-shift error branch of the checked
embedding is unreachable; at `bitCount = 0` the mask computation shifts a
64-bit value by 64, so the checked embedding returns `none`. -/
theorem bitreader_readbits64_shifts_in_range :
    (∀ (br : BitReader) (n : Nat), 1 ≤ n → n ≤ 64 → br.position + n ≤ br.sizeBits →
      (BitReader.ReadBits64Checked br n).isSome)
    ∧ BitReader.ReadBits64Checked ⟨[0, 0], 128, 1⟩ 0 = none := by
  constructor
  · intro br n h1 h64 hpos
    have hp : br.position >>> 6 = br.position / 64 := by
      rw [Nat.shiftRight_eq_div_pow]
    simp only [BitReader.ReadBits64Checked, hp]
    have hba1 : 1 ≤ (br.position / 64 + 1) * 64 - br.position := by omega
    have hba64 : (br.position / 64 + 1) * 64 - br.position ≤ 64 := by omega
    rw [if_neg (by omega : ¬ 64 ≤ max n ((br.position / 64 + 1) * 64 - br.position) - n)]
    by_cases hb : (br.position / 64 + 1) * 64 - br.position < n
    · rw [if_pos hb,
          if_neg (by omega : ¬ 64 ≤ n - ((br.position / 64 + 1) * 64 - br.position)),
          if_neg (by omega : ¬ 64 ≤ (2^32 + 64 - (n - ((br.position / 64 + 1) * 64 - br.position))) % 2^32)]
      simp only []
      rw [if_neg (by omega : ¬ 64 ≤ (2^32 + 64 - n) % 2^32)]
      simp
    · rw [if_neg hb]
      simp only []
      rw [if_neg (by omega : ¬ 64 ≤ (2^32 + 64 - n) % 2^32)]
      simp
  · decide

theorem bitreader_readbits64_shifts_in_range_witness :
    (BitReader.ReadBits64Checked ⟨[0, 0], 128, 3⟩ 7).isSome :=
  bitreader_readbits64_shifts_in_range.1 ⟨[0, 0], 128, 3⟩ 7
    (by norm_num) (by norm_num) (by norm_num)

/-! ## Disk buffer queue (`src/diskplot/DiskBufferQueue.cpp`)

Files are byte sequences (`List Nat`); a write appends bytes to a stream.
The OS `FileStream::Write` call may accept fewer bytes than requested; this
nondeterminism is captured by an explicit *schedule*: a list whose next
element is the byte count the OS accepts for the next `Write` call. A
schedule entry `< 1` corresponds to the fatal error branch, and an entry
larger than the requested size is rejected (the source asserts
`sizeWritten <= sizeToWrite`); both are embedded as `none` (`Fatal`). -/

/-- The `while( sizeToWrite )` retry loop of `DiskBufferQueue::WriteToFile`
(also the buffered-mode `while( size )` loop): keep calling `Write` until
`n` bytes of `buffer` are written. Returns the bytes that reached the file
and the unconsumed schedule. -/
def writeLoop (sched : List Nat) (n : Nat) (buffer : List Nat) :
    Option (List Nat × List Nat) :=
  if n = 0 then some ([], sched)
  else match sched with
    | [] => none
    | w :: sched' =>
      if w < 1 ∨ n < w then none
      else (writeLoop sched' (n - w) (buffer.drop w)).map
        fun p => (buffer.take w ++ p.1, p.2)

/-- `DiskBufferQueue::WriteToFile(file, size, buffer, blockBuffer, ...)`.
Buffered mode: loop until `size` bytes are written. Direct mode: write the
block-aligned prefix `size / blockSize * blockSize` in the same loop; if a
remainder is left, zero the scratch block, copy the trailing remainder bytes
into it, and issue exactly one `Write` of one full block (not retried).
Returns the bytes appended to the file and the remaining schedule. -/
def WriteToFile (useDirect : Bool) (blockSize size : Nat)
    (buffer sched : List Nat) : Option (List Nat × List Nat) :=
  if useDirect = false then
    writeLoop sched size buffer
  else
    let sizeToWrite := size / blockSize * blockSize
    let remainder := size - sizeToWrite
    match writeLoop sched sizeToWrite buffer with
    | none => none
    | some (written, sched') =>
      if remainder ≠ 0 then
        match sched' with
        | [] => none
        | w :: sched'' =>
          if w < 1 ∨ blockSize < w then none
          else
            let blockBuffer := (buffer.drop sizeToWrite).take remainder
                                 ++ List.replicate (blockSize - remainder) 0
            some (written ++ blockBuffer.take w, sched'')
      else some (written, sched')

/-- Modelled from the spec: `RoundUpToNextBoundaryT(size, boundary)` (defined
in `Util.h`, which is not under `src/`): round `size` up to the next multiple
of `boundary`. -/
def RoundUpToNextBoundary (size boundary : Nat) : Nat :=
  (size + boundary - 1) / boundary * boundary

/-- `DiskBufferQueue::CmdWriteBuckets`: iterate the buckets; for bucket `i`
write `sizes[i]` bytes in buffered mode, or only the block-aligned prefix
`sizes[i] / blockSize * blockSize` in direct mode; then advance the input
pointer by `sizes[i]` (buffered) or by `RoundUpToNextBoundary sizes[i]
blockSize` (direct). Returns the list of byte sequences appended to each
bucket's stream and the not-yet-consumed part of the input buffer. -/
def CmdWriteBuckets (useDirect : Bool) (blockSize : Nat) :
    List Nat → List Nat → List Nat → Option (List (List Nat) × List Nat)
  | [], buffer, _ => some ([], buffer)
  | sz :: sizes, buffer, sched =>
    let writeSize := if useDirect = false then sz else sz / blockSize * blockSize
    match WriteToFile useDirect blockSize writeSize buffer sched with
    | none => none
    | some (written, sched') =>
      let bufferOffset := if useDirect = false then sz
                          else RoundUpToNextBoundary sz blockSize
      match CmdWriteBuckets useDirect blockSize sizes (buffer.drop bufferOffset) sched' with
      | none => none
      | some (outs, rest) => some (written :: outs, rest)

/-- The `FileId` enumeration (listed in the spec's data model; the defining
header is not under `src/`). Each tag addresses one file set. -/
inductive FileId
  | Y0 | Y1 | META_A_0 | META_A_1 | META_B_0 | META_B_1 | X | F7
  | T2_L | T2_R | T3_L | T3_R | T4_L | T4_R | T5_L | T5_R | T6_L | T6_R | T7_L | T7_R
  | SORT_KEY2 | SORT_KEY3 | SORT_KEY4 | SORT_KEY5 | SORT_KEY6 | SORT_KEY7
  | MAP2 | MAP3 | MAP4 | MAP5 | MAP6 | MAP7
  | MARKED_ENTRIES_2 | MARKED_ENTRIES_3 | MARKED_ENTRIES_4 | MARKED_ENTRIES_5
  | MARKED_ENTRIES_6 | PLOT
deriving DecidableEq, Repr

/-- The block-size state of `DiskBufferQueue`: whether `_blockBuffer` has been
allocated, and the recorded `_blockSize`. -/
structure BlockRegistry where
  blockBufferAllocated : Bool
  blockSize : Nat
deriving DecidableEq, Repr

/-- The block-size bookkeeping of `DiskBufferQueue::InitFileSet` for one
successfully opened file (source lines 146–158): on the first open, record
the reported block size (fatal if `< 2`) and allocate the scratch block;
afterwards, a non-PLOT file whose reported block size differs from the
recorded one is fatal, while the PLOT file is never checked. `none` models
`Fatal`. -/
def recordBlockSize (st : BlockRegistry) (fileId : FileId) (reportedBlockSize : Nat) :
    Option BlockRegistry :=
  if st.blockBufferAllocated = false then
    if reportedBlockSize < 2 then none
    else some { blockBufferAllocated := true, blockSize := reportedBlockSize }
  else if fileId ≠ FileId.PLOT then
    if reportedBlockSize ≠ st.blockSize then none
    else some st
  else some st

/-- `sprintf("%u", n)`: decimal digits of `n`. -/
def uintChars (n : Nat) : List Char :=
  if h : n < 10 then [Char.ofNat (48 + n)]
  else uintChars (n / 10) ++ [Char.ofNat (48 + n % 10)]
decreasing_by exact Nat.div_lt_self (by omega) (by omega)

/-- The path `InitFileSet` opens for bucket `i` of a set:
`sprintf(baseName, "%s_%u.tmp", name, i)` for every file id except `PLOT`,
which uses `sprintf(baseName, "%s", name)` (the caller-supplied name,
verbatim). `workDir` is the normalized work directory (ends in a
separator). -/
def openFilePath (workDir : List Char) (fileId : FileId) (name : List Char)
    (bucket : Nat) : List Char :=
  if fileId ≠ FileId.PLOT then
    workDir ++ name ++ "_".data ++ uintChars bucket ++ ".tmp".data
  else
    workDir ++ name

/-- The path `CmdDeleteFile` / `CmdDeleteBucket` reconstruct and unlink:
always `sprintf(basePath, "%s_%u.tmp", name, bucket)`, for every file id. -/
def deleteFilePath (workDir : List Char) (name : List Char) (bucket : Nat) : List Char :=
  workDir ++ name ++ "_".data ++ uintChars bucket ++ ".tmp".data

/-! ## Claim theorems: file-set registry paths and block sizes -/

/-- **C9**: `CmdDeleteFile`/`CmdDeleteBucket` always reconstruct the path as
`<work_dir>/<set_name>_<bucket>.tmp`, whereas `InitFileSet` opened `PLOT` at
`<work_dir>/<name>` with no suffix — so the deleted path equals the opened
path if and only if the file id is not `PLOT`. -/
theorem delete_path_eq_open_path_iff (workDir name : List Char) (fileId : FileId)
    (bucket : Nat) :
    deleteFilePath workDir name bucket = openFilePath workDir fileId name bucket
      ↔ fileId ≠ FileId.PLOT := by
  unfold deleteFilePath openFilePath
  by_cases h : fileId = FileId.PLOT
  · subst h
    simp only [ne_eq, not_true_eq_false, if_false, ite_false]
    constructor
    · intro heq
      have hlen := congrArg List.length heq
      have h1 : ("_".data).length = 1 := rfl
      have h4 : (".tmp".data).length = 4 := rfl
      simp only [List.length_append, h1, h4] at hlen
      omega
    · intro hne; exact hne.elim
  · simp [h]

theorem delete_path_eq_open_path_iff_witness :
    deleteFilePath "wd/".data "y0".data 3 = openFilePath "wd/".data FileId.Y0 "y0".data 3
    ∧ deleteFilePath "wd/".data "p.tmp".data 0
        ≠ openFilePath "wd/".data FileId.PLOT "p.tmp".data 0 :=
  ⟨(delete_path_eq_open_path_iff "wd/".data "y0".data FileId.Y0 3).mpr (by decide),
   fun h => ((delete_path_eq_open_path_iff "wd/".data "p.tmp".data FileId.PLOT 0).mp h) rfl⟩

/-- **C7 (counterexample)**: once the scratch block is allocated, opening the
`PLOT` file with a *different* reported block size does **not** terminate
fatally — the block-size equality check is skipped for `PLOT`
(`else if( fileId != FileId::PLOT )`), contradicting the claim that a
differing block size is fatal for every file id including `PLOT`. -/
theorem blocksize_plot_exempt_cex :
    recordBlockSize ⟨true, 4096⟩ FileId.PLOT 512 = some ⟨true, 4096⟩
    ∧ (512 : Nat) ≠ 4096 := ⟨by decide, by decide⟩

/-- **C7 (amended)**: after the first successfully opened file records the
block size and allocates the scratch block, every *non-PLOT* file opened
afterwards must report an identical block size — a differing size is fatal
(`none`) — while the `PLOT` file is exempt from the check; the first open
records the reported size (fatal if `< 2`). -/
theorem blocksize_mismatch_fatal_nonplot (st : BlockRegistry) (fileId : FileId) (bs : Nat)
    (halloc : st.blockBufferAllocated = true) :
    (fileId ≠ FileId.PLOT → bs ≠ st.blockSize → recordBlockSize st fileId bs = none)
    ∧ (recordBlockSize st fileId bs = some st ↔ (fileId = FileId.PLOT ∨ bs = st.blockSize))
    ∧ (∀ st0 : BlockRegistry, st0.blockBufferAllocated = false → 2 ≤ bs →
        recordBlockSize st0 fileId bs = some ⟨true, bs⟩) := by
  refine ⟨?_, ?_, ?_⟩
  · intro hnp hne
    simp [recordBlockSize, halloc, hnp, hne]
  · by_cases hp : fileId = FileId.PLOT
    · simp [recordBlockSize, halloc, hp]
    · by_cases he : bs = st.blockSize
      · simp [recordBlockSize, halloc, hp, he]
      · simp [recordBlockSize, halloc, hp, he]
  · intro st0 h0 h2
    simp [recordBlockSize, h0]
    omega

theorem blocksize_mismatch_fatal_nonplot_witness :
    recordBlockSize ⟨true, 4096⟩ FileId.Y0 512 = none :=
  (blocksize_mismatch_fatal_nonplot ⟨true, 4096⟩ FileId.Y0 512 rfl).1
    (by decide) (by decide)

/-! ## Write-loop and block arithmetic helpers -/

theorem writeLoop_some :
    ∀ (sched : List Nat) (n : Nat) (buffer out sched' : List Nat),
    writeLoop sched n buffer = some (out, sched') → out = buffer.take n := by
  intro sched
  induction sched with
  | nil =>
    intro n buffer out sched' h
    unfold writeLoop at h
    by_cases hn : n = 0
    · rw [if_pos hn] at h
      simp only [Option.some.injEq, Prod.mk.injEq] at h
      rw [← h.1, hn]
      simp
    · rw [if_neg hn] at h
      exact absurd h (by simp)
  | cons w sched ih =>
    intro n buffer out sched' h
    unfold writeLoop at h
    by_cases hn : n = 0
    · rw [if_pos hn] at h
      simp only [Option.some.injEq, Prod.mk.injEq] at h
      rw [← h.1, hn]
      simp
    · rw [if_neg hn] at h
      dsimp only [] at h
      by_cases hc : w < 1 ∨ n < w
      · rw [if_pos hc] at h; exact absurd h (by simp)
      · rw [if_neg hc] at h
        push_neg at hc
        obtain ⟨hw1, hwn⟩ := hc
        obtain ⟨⟨p1, p2⟩, hp, heq⟩ := Option.map_eq_some'.mp h
        obtain ⟨rfl, rfl⟩ : buffer.take w ++ p1 = out ∧ p2 = sched' := by
          constructor
          · exact congrArg Prod.fst heq
          · exact congrArg Prod.snd heq
        have hrec := ih (n - w) (buffer.drop w) p1 p2 hp
        rw [hrec, ← List.take_add]
        congr 1
        omega

theorem ceil_block_arith (s B : Nat) (hB : 0 < B) :
    (s + B - 1) / B * B = s / B * B + (if s % B = 0 then 0 else B) := by
  have hdm := Nat.div_add_mod s B
  have hc1 : s / B * B = B * (s / B) := Nat.mul_comm _ _
  by_cases hz : s % B = 0
  · rw [if_pos hz]
    have h1 : s + B - 1 = (B - 1) + B * (s / B) := by omega
    rw [h1, Nat.add_mul_div_left _ _ hB, Nat.div_eq_of_lt (by omega : B - 1 < B)]
    have h3 : (0 + s / B) * B = s / B * B := by ring
    omega
  · rw [if_neg hz]
    have hrB : s % B < B := Nat.mod_lt _ hB
    have h2 : B * (s / B + 1) = B * (s / B) + B := by ring
    have h1 : s + B - 1 = (s % B - 1) + B * (s / B + 1) := by omega
    rw [h1, Nat.add_mul_div_left _ _ hB, Nat.div_eq_of_lt (by omega : s % B - 1 < B)]
    have h3 : (0 + (s / B + 1)) * B = s / B * B + B := by ring
    omega

/-- **C1**: a direct-mode `WriteFile` of size `s > 0` on a stream with block
size `B` grows the file by exactly `ceil(s/B)*B` bytes and the first `s`
bytes equal the producer's buffer: the `floor(s/B)*B`-byte aligned prefix is
written by the retry loop, and when `s % B ≠ 0`, exactly one further block is
appended whose first `s % B` bytes are the trailing producer bytes and whose
remaining bytes are zero (from the zeroed scratch block). The hypotheses say
the retry loop succeeds with some OS write schedule and the single remainder
block `Write` is accepted in full. -/
theorem writefile_direct_block_aligned_growth (B s : Nat)
    (buffer sched out sched' : List Nat)
    (hB : 0 < B) (hs : 0 < s) (hbuf : s ≤ buffer.length)
    (hloop : writeLoop sched (s / B * B) buffer = some (out, sched'))
    (hfull : s % B ≠ 0 → sched'.head? = some B) :
    ∃ sched'',
      WriteToFile true B s buffer sched
        = some (buffer.take s ++ List.replicate ((s + B - 1) / B * B - s) 0, sched'')
      ∧ (buffer.take s ++ List.replicate ((s + B - 1) / B * B - s) 0).length
          = (s + B - 1) / B * B := by
  have hdm := Nat.div_add_mod s B
  have hc1 : s / B * B = B * (s / B) := Nat.mul_comm _ _
  have hmlt : s % B < B := Nat.mod_lt _ hB
  have hout : out = buffer.take (s / B * B) := writeLoop_some _ _ _ _ _ hloop
  have hceil := ceil_block_arith s B hB
  have hlen_take : (buffer.take s).length = s := by
    rw [List.length_take]; omega
  simp only [WriteToFile]
  rw [if_neg (by decide : ¬ (true = false))]
  rw [hloop]
  have hrm : s - s / B * B = s % B := by omega
  simp only [hrm]
  by_cases hz : s % B = 0
  · have hceil0 : (s + B - 1) / B * B = s / B * B := by
      rw [hceil, if_pos hz]; omega
    rw [if_neg (by simp [hz])]
    refine ⟨sched', ?_, ?_⟩
    · have h1 : s / B * B = s := by omega
      have h2 : (s + B - 1) / B * B - s = 0 := by omega
      rw [hout, h1, h2]
      simp
    · rw [List.length_append, hlen_take, List.length_replicate]; omega
  · have hceilB : (s + B - 1) / B * B = s / B * B + B := by
      rw [hceil, if_neg hz]
    rw [if_pos hz]
    cases sched' with
    | nil => exact absurd (hfull hz) (by simp)
    | cons w t =>
      have hw : w = B := by
        have hh := hfull hz
        simp at hh
        exact hh
      rw [hw]
      have hblen : ((buffer.drop (s / B * B)).take (s % B)).length = s % B := by
        rw [List.length_take, List.length_drop]; omega
      have htake :
          ((buffer.drop (s / B * B)).take (s % B)
            ++ List.replicate (B - s % B) 0).take B
          = (buffer.drop (s / B * B)).take (s % B) ++ List.replicate (B - s % B) 0 := by
        apply List.take_of_length_le
        rw [List.length_append, hblen, List.length_replicate]; omega
      refine ⟨t, ?_, ?_⟩
      · show (if B < 1 ∨ B < B then none
              else some (out ++ List.take B (List.take (s % B) (List.drop (s / B * B) buffer)
                           ++ List.replicate (B - s % B) 0), t))
            = some (List.take s buffer ++ List.replicate ((s + B - 1) / B * B - s) 0, t)
        rw [if_neg (by omega : ¬ (B < 1 ∨ B < B))]
        rw [hout, htake, ← List.append_assoc, ← List.take_add]
        have h1 : s / B * B + s % B = s := by omega
        have h2 : (s + B - 1) / B * B - s = B - s % B := by omega
        rw [h1, h2]
      · rw [List.length_append, hlen_take, List.length_replicate]; omega

theorem writefile_direct_block_aligned_growth_witness :
    ∃ sched'',
      WriteToFile true 4 6 [1, 2, 3, 4, 5, 6] [4, 4]
        = some ([1, 2, 3, 4, 5, 6].take 6
                  ++ List.replicate ((6 + 4 - 1) / 4 * 4 - 6) 0, sched'')
      ∧ ([1, 2, 3, 4, 5, 6].take 6
          ++ List.replicate ((6 + 4 - 1) / 4 * 4 - 6) 0).length = (6 + 4 - 1) / 4 * 4 :=
  writefile_direct_block_aligned_growth 4 6 [1, 2, 3, 4, 5, 6] [4, 4] [1, 2, 3, 4] [4]
    (by decide) (by decide) (by decide) (by decide) (by decide)

/-! ## WriteBuckets: per-bucket write sizes and strides -/

/-- The total input stride `CmdWriteBuckets` consumes over a list of bucket
sizes: `sizes[i]` each in buffered mode, `RoundUpToNextBoundary sizes[i] B`
each in direct mode. -/
def strideSum (direct : Bool) (B : Nat) (sizes : List Nat) : Nat :=
  (sizes.map (fun sz => if direct = false then sz else RoundUpToNextBoundary sz B)).sum

theorem strideSum_nil (direct : Bool) (B : Nat) : strideSum direct B [] = 0 := rfl

theorem strideSum_cons (direct : Bool) (B sz : Nat) (l : List Nat) :
    strideSum direct B (sz :: l)
      = (if direct = false then sz else RoundUpToNextBoundary sz B) + strideSum direct B l := by
  simp [strideSum]

theorem WriteToFile_aligned_some (direct : Bool) (B n : Nat)
    (buffer sched w sch' : List Nat)
    (halign : direct = true → n % B = 0)
    (h : WriteToFile direct B n buffer sched = some (w, sch')) :
    w = buffer.take n := by
  cases direct with
  | false =>
    simp only [WriteToFile, if_pos rfl] at h
    exact writeLoop_some _ _ _ _ _ h
  | true =>
    have hmod : n % B = 0 := halign rfl
    have hdm := Nat.div_add_mod n B
    have hc : n / B * B = B * (n / B) := Nat.mul_comm _ _
    have hsw : n / B * B = n := by omega
    simp only [WriteToFile, if_neg (by decide : ¬ (true = false)), hsw] at h
    rw [show n - n = 0 from by omega] at h
    simp only [ne_eq, not_true_eq_false, if_false, ite_false] at h
    cases hW : writeLoop sched n buffer with
    | none => rw [hW] at h; exact absurd h (by simp)
    | some p =>
      obtain ⟨p1, p2⟩ := p
      rw [hW] at h
      simp only [Option.some.injEq, Prod.mk.injEq] at h
      rw [← h.1]
      exact writeLoop_some _ _ _ _ _ hW

/-- **C2**: a `WriteBuckets` command in direct mode writes to bucket stream
`i` exactly `floor(sizes[i]/B)*B` bytes — a contiguous slice of the input
buffer, never a scratch-remainder block, and nothing at all when
`sizes[i] < B` — and advances the input pointer by
`RoundUpToNextBoundary sizes[i] B` per bucket; in buffered mode it writes
`sizes[i]` bytes and advances by `sizes[i]`. -/
theorem writebuckets_floor_write_roundup_stride (direct : Bool) (B : Nat) :
    ∀ (sizes buffer sched : List Nat) (outs : List (List Nat)) (rest : List Nat),
    CmdWriteBuckets direct B sizes buffer sched = some (outs, rest) →
    outs.length = sizes.length
    ∧ (∀ i, i < sizes.length →
        outs.getD i [] = (buffer.drop (strideSum direct B (sizes.take i))).take
            (if direct = false then sizes.getD i 0 else sizes.getD i 0 / B * B))
    ∧ rest = buffer.drop (strideSum direct B sizes) := by
  intro sizes
  induction sizes with
  | nil =>
    intro buffer sched outs rest h
    simp only [CmdWriteBuckets, Option.some.injEq, Prod.mk.injEq] at h
    refine ⟨by rw [← h.1]; rfl, ?_, ?_⟩
    · intro i hi; exact absurd hi (by simp)
    · rw [strideSum_nil, List.drop_zero]; exact h.2.symm
  | cons sz sizes ih =>
    intro buffer sched outs rest h
    simp only [CmdWriteBuckets] at h
    cases hW : WriteToFile direct B (if direct = false then sz else sz / B * B) buffer sched with
    | none => rw [hW] at h; exact absurd h (by simp)
    | some p =>
      obtain ⟨w, sch'⟩ := p
      rw [hW] at h
      dsimp only [] at h
      cases hR : CmdWriteBuckets direct B sizes
          (buffer.drop (if direct = false then sz else RoundUpToNextBoundary sz B)) sch' with
      | none => rw [hR] at h; exact absurd h (by simp)
      | some q =>
        obtain ⟨outs', rest'⟩ := q
        rw [hR] at h
        simp only [Option.some.injEq, Prod.mk.injEq] at h
        obtain ⟨houts, hrest⟩ := h
        have hw : w = buffer.take (if direct = false then sz else sz / B * B) := by
          refine WriteToFile_aligned_some direct B _ buffer sched w sch' ?_ hW
          intro hd
          rw [hd]
          simp only [Bool.true_eq_false, if_false, ite_false]
          exact Nat.mul_mod_left _ _
        obtain ⟨ihlen, ihget, ihrest⟩ := ih _ _ _ _ hR
        refine ⟨?_, ?_, ?_⟩
        · rw [← houts]; simp [ihlen]
        · intro i hi
          cases i with
          | zero =>
            rw [← houts]
            simp only [List.getD_cons_zero, List.take_zero, strideSum_nil, List.drop_zero]
            simpa using hw
          | succ i =>
            rw [← houts]
            simp only [List.getD_cons_succ]
            rw [ihget i (by simpa using Nat.lt_of_succ_lt_succ hi)]
            rw [List.drop_drop, List.take_succ_cons, strideSum_cons]
        · rw [← hrest, ihrest, List.drop_drop, strideSum_cons]

theorem writebuckets_floor_write_roundup_stride_witness :
    (([[0, 1, 2, 3], [8, 9, 10, 11], [], [12, 13, 14, 15, 16, 17, 18, 19]]
        : List (List Nat)).length = ([5, 4, 0, 8] : List Nat).length)
    ∧ ([] : List Nat) = (List.range 20).drop (strideSum true 4 [5, 4, 0, 8]) := by
  have h := writebuckets_floor_write_roundup_stride true 4 [5, 4, 0, 8]
    (List.range 20) [4, 4, 8]
    [[0, 1, 2, 3], [8, 9, 10, 11], [], [12, 13, 14, 15, 16, 17, 18, 19]] []
    (by decide)
  exact ⟨h.1, h.2.2⟩

/-- Evaluation of the spec's bucket-roundtrip scenario on the embedding:
`BUCKET_COUNT = 4`, `block = 4096`, direct I/O,
`WriteBuckets(sizes = [4100, 4096, 0, 8192])` over a 20480-byte input. -/
theorem cmdWriteBuckets_scenario_eval :
    CmdWriteBuckets true 4096 [4100, 4096, 0, 8192] (List.replicate 20480 7)
        [4096, 4096, 8192]
      = some ([List.replicate 4096 7, List.replicate 4096 7, [], List.replicate 8192 7],
              []) := by
  norm_num [CmdWriteBuckets, WriteToFile, writeLoop, RoundUpToNextBoundary,
    List.take_replicate, List.drop_replicate, List.drop_drop]

/-- **C3 (counterexample)**: in the spec's scenario
(`block = 4096`, direct I/O, `sizes = [4100, 4096, 0, 8192]`), stream 0
grows by only 4096 bytes, not the claimed 8192: `CmdWriteBuckets` floors
each bucket's size to the block boundary *before* calling `WriteToFile`, so
no scratch-remainder block is ever written for the 4-byte tail of bucket 0. -/
theorem writebuckets_scenario_stream0_cex :
    (CmdWriteBuckets true 4096 [4100, 4096, 0, 8192] (List.replicate 20480 7)
        [4096, 4096, 8192]).map (fun p => p.1.map List.length)
      = some [4096, 4096, 0, 8192]
    ∧ (4096 : Nat) ≠ 8192 := by
  constructor
  · rw [cmdWriteBuckets_scenario_eval]
    simp only [Option.map_some', List.map_cons, List.map_nil,
      List.length_replicate, List.length_nil]
  · norm_num

/-- **C3 (amended)**: with `BUCKET_COUNT = 4`, `block = 4096`, direct I/O,
`WriteBuckets(sizes = [4100, 4096, 0, 8192])` grows stream 0 by 4096 bytes
(the 4-byte tail is left to the caller — no scratch-remainder block is
written), stream 1 by 4096, leaves stream 2 untouched, grows stream 3 by
8192, and consumes an in-memory input stride of
`round_up(4100,4096) + 4096 + 0 + 8192 = 20480` bytes in total. -/
theorem writebuckets_scenario_sizes_amended :
    CmdWriteBuckets true 4096 [4100, 4096, 0, 8192] (List.replicate 20480 7)
        [4096, 4096, 8192]
      = some ([List.replicate 4096 7, List.replicate 4096 7, [], List.replicate 8192 7],
              [])
    ∧ strideSum true 4096 [4100, 4096, 0, 8192] = 20480 :=
  ⟨cmdWriteBuckets_scenario_eval, by norm_num [strideSum, RoundUpToNextBoundary]⟩

/-! ## Plot header (`DiskBufferQueue::OpenPlotFile`) -/

/-- `memcpy(buf + off, data, data.length)` into a byte buffer. -/
def memWrite (buf : List Nat) (off : Nat) (data : List Nat) : List Nat :=
  buf.take off ++ data ++ buf.drop (off + data.length)

/-- Little-endian in-memory layout of a `uint16` store
(`*((uint16*)headerWriter) = u`). -/
def storeU16LE (u : Nat) : List Nat := [u % 256, u / 2^8 % 256]

/-- The queue command `OpenPlotFile` enqueues. -/
inductive QCommand
  | writeFile (fileId : FileId) (bucket : Nat) (buffer : List Nat) (size : Nat)
deriving DecidableEq, Repr

/-- `DiskBufferQueue::OpenPlotFile` over the freshly virtual-allocated
(zero-initialized) header buffer: the source's sequence of
memcpy/`Swap16`-stores at the advancing `headerWriter` offset.
`kPOSMagic` (without its NUL), `kFormatDescription` (without its NUL) and
`_K` are constants defined outside `src/`; they appear as the parameters
`magic`, `fmtDesc` and `k` (the source casts the format-description length
to `uint16`, hence the `% 2^16`). Returns the header buffer,
`_plotTablesPointers` (the final writer offset), and the enqueued
`WriteFile(PLOT, 0, header, headerSize)` command. -/
def OpenPlotFile (magic fmtDesc : List Nat) (k : Nat) (plotId plotMemo : List Nat)
    (plotMemoSize : Nat) : List Nat × Nat × QCommand :=
  let headerSize := magic.length + 32 + 1 + 2 + fmtDesc.length + 2 + plotMemoSize + 80
  let header0 := List.replicate headerSize 0
  let header1 := memWrite header0 0 magic
  let header2 := memWrite header1 magic.length (plotId.take 32)
  let header3 := memWrite header2 (magic.length + 32) [k % 256]
  let header4 := memWrite header3 (magic.length + 32 + 1)
                   (storeU16LE (Swap16 (fmtDesc.length % 2^16)))
  let header5 := memWrite header4 (magic.length + 32 + 1 + 2) fmtDesc
  let header6 := memWrite header5 (magic.length + 32 + 1 + 2 + fmtDesc.length)
                   (storeU16LE (Swap16 plotMemoSize))
  let header7 := memWrite header6 (magic.length + 32 + 1 + 2 + fmtDesc.length + 2)
                   (plotMemo.take plotMemoSize)
  (header7, magic.length + 32 + 1 + 2 + fmtDesc.length + 2 + plotMemoSize,
   QCommand.writeFile FileId.PLOT 0 header7 headerSize)

theorem memWrite_at_end (A : List Nat) (pad off : Nat) (data : List Nat)
    (hoff : off = A.length) (hfit : data.length ≤ pad) :
    memWrite (A ++ List.replicate pad 0) off data
      = (A ++ data) ++ List.replicate (pad - data.length) 0 := by
  subst hoff
  unfold memWrite
  rw [List.take_left]
  rw [← List.drop_drop, List.drop_left, List.drop_replicate]

theorem memWrite_zero (pad : Nat) (data : List Nat) (hfit : data.length ≤ pad) :
    memWrite (List.replicate pad 0) 0 data
      = data ++ List.replicate (pad - data.length) 0 := by
  have h := memWrite_at_end [] pad 0 data rfl hfit
  simpa using h

/-- Storing `Swap16 v` through a `uint16*` on a little-endian machine lays
down exactly the big-endian bytes of `v`. -/
theorem storeU16LE_swap16 (v : Nat) :
    storeU16LE (Swap16 v) = [v / 2^8 % 256, v % 256] := by
  have h1 : v % 256 < 256 := Nat.mod_lt _ (by norm_num)
  have hsum : v % 256 * 256 + v / 256 % 256 = v / 256 % 256 + 256 * (v % 256) := by ring
  have hd : (v % 256 * 256 + v / 256 % 256) / 256 = v % 256 := by
    rw [hsum, Nat.add_mul_div_left _ _ (by norm_num : (0:Nat) < 256),
        Nat.div_eq_of_lt (by omega : v / 256 % 256 < 256)]
    omega
  simp only [storeU16LE, Swap16, List.cons.injEq, and_true]
  norm_num
  refine ⟨?_, ?_⟩
  · rw [Nat.mul_comm (v % 256) 256, Nat.mul_add_mod]
  · rw [hd]
    omega

/-- **C6**: `OpenPlotFile` produces a header buffer that is byte-exactly
`kPOSMagic (no NUL) || plot_id (32 bytes) || k (1 byte) || be16(len fmt_desc)
|| fmt_desc (no NUL) || be16(memo_size) || memo || 80 zero bytes`, records
`_plotTablesPointers` as the byte offset of the 80-byte table-pointer region
(`headerSize - 80`), and enqueues the header as a
`WriteFile` to bucket 0 of `PLOT` of size `headerSize`. -/
theorem openplotfile_header_layout (magic fmtDesc plotId plotMemo : List Nat)
    (k plotMemoSize : Nat)
    (hplot : plotId.length = 32) (hmemo : plotMemo.length = plotMemoSize)
    (hfmt : fmtDesc.length < 2^16) (hk : k < 256) :
    (OpenPlotFile magic fmtDesc k plotId plotMemo plotMemoSize).1
        = magic ++ plotId ++ [k]
          ++ [fmtDesc.length / 2^8 % 256, fmtDesc.length % 256]
          ++ fmtDesc ++ [plotMemoSize / 2^8 % 256, plotMemoSize % 256]
          ++ plotMemo ++ List.replicate 80 0
    ∧ (OpenPlotFile magic fmtDesc k plotId plotMemo plotMemoSize).2.1
        = magic.length + 32 + 1 + 2 + fmtDesc.length + 2 + plotMemoSize
    ∧ (OpenPlotFile magic fmtDesc k plotId plotMemo plotMemoSize).2.2
        = QCommand.writeFile FileId.PLOT 0
            (OpenPlotFile magic fmtDesc k plotId plotMemo plotMemoSize).1
            (magic.length + 32 + 1 + 2 + fmtDesc.length + 2 + plotMemoSize + 80) := by
  have htake32 : plotId.take 32 = plotId := by
    rw [← hplot]; exact List.take_length plotId
  have htakem : plotMemo.take plotMemoSize = plotMemo := by
    rw [← hmemo]; exact List.take_length _
  have hfmtmod : fmtDesc.length % 2^16 = fmtDesc.length := Nat.mod_eq_of_lt hfmt
  refine ⟨?_, rfl, rfl⟩
  simp only [OpenPlotFile, htake32, htakem, hfmtmod]
  rw [memWrite_zero _ _ (by omega)]
  rw [memWrite_at_end magic _ _ _ rfl
        (by simp only [List.length_append, List.length_cons, List.length_nil, storeU16LE, hplot, hmemo] <;> omega)]
  rw [memWrite_at_end (magic ++ plotId) _ _ _
        (by simp only [List.length_append, List.length_cons, List.length_nil, storeU16LE, hplot, hmemo] <;> omega)
        (by simp only [List.length_append, List.length_cons, List.length_nil, storeU16LE, hplot, hmemo] <;> omega)]
  rw [memWrite_at_end ((magic ++ plotId) ++ [k % 256]) _ _ _
        (by simp only [List.length_append, List.length_cons, List.length_nil, storeU16LE, hplot, hmemo] <;> omega)
        (by simp only [List.length_append, List.length_cons, List.length_nil, storeU16LE, hplot, hmemo] <;> omega)]
  rw [memWrite_at_end (((magic ++ plotId) ++ [k % 256]) ++ storeU16LE (Swap16 fmtDesc.length)) _ _ _
        (by simp only [List.length_append, List.length_cons, List.length_nil, storeU16LE, hplot, hmemo] <;> omega)
        (by simp only [List.length_append, List.length_cons, List.length_nil, storeU16LE, hplot, hmemo] <;> omega)]
  rw [memWrite_at_end ((((magic ++ plotId) ++ [k % 256]) ++ storeU16LE (Swap16 fmtDesc.length)) ++ fmtDesc) _ _ _
        (by simp only [List.length_append, List.length_cons, List.length_nil, storeU16LE, hplot, hmemo] <;> omega)
        (by simp only [List.length_append, List.length_cons, List.length_nil, storeU16LE, hplot, hmemo] <;> omega)]
  rw [memWrite_at_end (((((magic ++ plotId) ++ [k % 256]) ++ storeU16LE (Swap16 fmtDesc.length)) ++ fmtDesc) ++ storeU16LE (Swap16 plotMemoSize)) _ _ _
        (by simp only [List.length_append, List.length_cons, List.length_nil, storeU16LE, hplot, hmemo] <;> omega)
        (by simp only [List.length_append, List.length_cons, List.length_nil, storeU16LE, hplot, hmemo] <;> omega)]
  rw [storeU16LE_swap16, storeU16LE_swap16, Nat.mod_eq_of_lt hk]
  congr 1
  congr 1
  simp only [List.length_cons, List.length_nil, hplot, hmemo]
  omega


theorem openplotfile_header_layout_witness :
    (OpenPlotFile [80, 111] [118] 32 (List.replicate 32 1) [170, 187] 2).1
        = [80, 111] ++ List.replicate 32 1 ++ [32]
          ++ [([118] : List Nat).length / 2^8 % 256, ([118] : List Nat).length % 256]
          ++ [118] ++ [2 / 2^8 % 256, 2 % 256]
          ++ [170, 187] ++ List.replicate 80 0 :=
  (openplotfile_header_layout [80, 111] [118] (List.replicate 32 1) [170, 187] 32 2
    (by decide) (by decide) (by decide) (by decide)).1
